import Mathlib

/-
  Verification development for the console banking system (src/main/noign.cpp).

  The ledger and persistence layer is embedded shallowly:

  * Amounts and balances: the source stores them as C++ `double`.  They are
    modelled as exact integers (ℤ), the spec's recommended integer-cents
    reading (spec §9).  Every claim below concerns the additive/order
    structure of amounts, never float rounding, and exact integers keep all
    definitions kernel-computable.  The "numerical re-rendering" quotient of
    the round-trip claim collapses to exact rendering under this model.
  * Account ids (`int`): modelled as ℤ.
  * The persisted file: the source writes line-by-line (`<< ... << endl`) and
    reads line-by-line (`getline`), so the file is modelled as its list of
    lines (`List String`).
  * Timestamps (`currentTime()`): wall-clock strings; each mutating
    operation takes the timestamp it records as an explicit argument.
  * `stoi`/`stod` throw on unparsable input and the program catches nothing,
    so parsing functions return `Option` and a `none` anywhere during `load`
    makes the whole load `none` (the crashed program produces no state).
-/

-- ========================================
-- Decimal rendering and parsing
-- (models `stringstream << int`, `stringstream << double`, `stoi`, `stod`;
--  exact on every number this program itself renders)
-- ========================================

/-- Character for a single decimal digit. -/
def decChar (d : ℕ) : Char := Char.ofNat (48 + d)

/-- Decimal digit test on characters. -/
def isDecDigit (c : Char) : Bool := 48 ≤ c.toNat && c.toNat ≤ 57

/-- Little-endian decimal digits of `n`, with explicit fuel so the
definition is structurally recursive (fuel `n` always suffices). -/
def natDigitsAux : ℕ → ℕ → List ℕ
  | 0, _ => []
  | fuel + 1, n => if n = 0 then [] else n % 10 :: natDigitsAux fuel (n / 10)

/-- Decimal rendering of a natural number. -/
def natToStr (n : ℕ) : String :=
  if n = 0 then "0" else ⟨(natDigitsAux n n).reverse.map decChar⟩

/-- Decimal rendering of an integer (models `operator<<` on the numbers
this program writes). -/
def intToStr (i : ℤ) : String :=
  if i < 0 then "-" ++ natToStr i.natAbs else natToStr i.natAbs

/-- Parse a nonempty all-digit character list as a natural number. -/
def parseNatCh (cs : List Char) : Option ℕ :=
  if cs ≠ [] && cs.all isDecDigit then
    some (cs.foldl (fun a c => 10 * a + (c.toNat - 48)) 0)
  else none

/-- Parse an optionally negated decimal integer (models `stoi`/`stod`;
exact on the renderings this program produces, `none` -- i.e. a thrown
exception -- on anything else). -/
def parseIntCh (cs : List Char) : Option ℤ :=
  match cs with
  | '-' :: rest => (parseNatCh rest).map (fun n => -(n : ℤ))
  | _ => (parseNatCh cs).map (fun n => (n : ℤ))

/-- Split a character list on a delimiter, keeping empty fields
(models repeated `getline(ss, tok, delim)`). -/
def splitCh (c : Char) : List Char → List (List Char)
  | [] => [[]]
  | x :: xs =>
    if x = c then [] :: splitCh c xs
    else
      match splitCh c xs with
      | [] => [[x]]
      | g :: gs => (x :: g) :: gs

/-- Parse an integer from a string (models `stoi`/`stod`). -/
def strToInt (s : String) : Option ℤ := parseIntCh s.toList

-- ========================================
-- Transaction  (struct Transaction, noign.cpp lines 47-73)
-- ========================================

/-- One transaction record: timestamp, kind and amount
(struct `Transaction`). -/
structure Transaction where
  timestamp : String
  type : String
  amount : ℤ
  deriving DecidableEq

/-- Transaction::serialize: `timestamp|type|amount`. -/
def Transaction.serialize (t : Transaction) : String :=
  t.timestamp ++ "|" ++ t.type ++ "|" ++ intToStr t.amount

/-- Transaction::deserialize: split on `|`; missing fields are left empty by
a failed `getline`, and `stod` on a non-numeric amount throws (`none`). -/
def Transaction.deserialize (line : String) : Option Transaction :=
  let fs := (splitCh '|' line.toList).map (fun l => (⟨l⟩ : String))
  match strToInt (fs.getD 2 "") with
  | none => none
  | some a => some ⟨fs.getD 0 "", fs.getD 1 "", a⟩

-- ========================================
-- Account  (class Account, noign.cpp lines 79-191)
-- ========================================

/-- An account: id, owner, running balance and ordered history
(class `Account`). -/
structure Account where
  id : ℤ
  owner : String
  balance : ℤ
  history : List Transaction
  deriving DecidableEq

/-- Account::deposit: unconditionally adds `amount` and appends a DEPOSIT
entry (there is no sign check in the source). -/
def Account.deposit (a : Account) (amount : ℤ) (ts : String) : Account :=
  { a with balance := a.balance + amount,
           history := a.history ++ [⟨ts, "DEPOSIT", amount⟩] }

/-- Account::withdraw: fails (`false`) when `amount > balance`, otherwise
subtracts and appends a WITHDRAW entry.  The only check is the comparison
with the balance. -/
def Account.withdraw (a : Account) (amount : ℤ) (ts : String) : Account × Bool :=
  if a.balance < amount then (a, false)
  else ({ a with balance := a.balance - amount,
                 history := a.history ++ [⟨ts, "WITHDRAW", amount⟩] }, true)

/-- Account::transferOut: unconditional subtract plus TRANSFER_OUT entry. -/
def Account.transferOut (a : Account) (amount : ℤ) (ts : String) : Account :=
  { a with balance := a.balance - amount,
           history := a.history ++ [⟨ts, "TRANSFER_OUT", amount⟩] }

/-- Account::transferIn: unconditional add plus TRANSFER_IN entry. -/
def Account.transferIn (a : Account) (amount : ℤ) (ts : String) : Account :=
  { a with balance := a.balance + amount,
           history := a.history ++ [⟨ts, "TRANSFER_IN", amount⟩] }

/-- Account::serialize: header line `id;owner;balance`, one `T:`-prefixed
line per transaction, then the terminator line `END`. -/
def Account.serialize (a : Account) : List String :=
  (intToStr a.id ++ ";" ++ a.owner ++ ";" ++ intToStr a.balance)
    :: a.history.map (fun t => "T:" ++ t.serialize)
    ++ ["END"]

/-- Header half of Account::deserialize: split the header line on `;`,
parse id (`stoi`) and balance (`stod`); the owner is taken verbatim and the
balance is copied with no reconciliation against the transaction lines. -/
def Account.parseHeader (header : String) : Option Account :=
  let fs := (splitCh ';' header.toList).map (fun l => (⟨l⟩ : String))
  match strToInt (fs.getD 0 ""), strToInt (fs.getD 2 "") with
  | some id, some bal => some ⟨id, fs.getD 1 "", bal, []⟩
  | _, _ => none

-- ========================================
-- Bank  (class Bank, noign.cpp lines 197-413)
-- ========================================

/-- The ledger: account vector in insertion order plus the id allocator
(class `Bank`). -/
structure Bank where
  accounts : List Account
  nextId : ℤ
  deriving DecidableEq

/-- The freshly constructed bank before `load`: no accounts, `nextId = 1`. -/
def initBank : Bank := ⟨[], 1⟩

/-- Bank::findAccount: linear scan returning the first account with the
given id. -/
def Bank.findAccount (b : Bank) (id : ℤ) : Option Account :=
  b.accounts.find? (fun a => a.id == id)

/-- Mutation through the pointer returned by findAccount: rewrite the first
account satisfying `p` in place. -/
def updateFirst (p : Account → Bool) (f : Account → Account) : List Account → List Account
  | [] => []
  | a :: as => if p a then f a :: as else a :: updateFirst p f as

/-- Outcome a Bank operation reports to the operator (the printed message). -/
inductive BankResult
  | ok
  | notFound
  | insufficientFunds
  deriving DecidableEq

/-- Bank::createAccount: `accounts.emplace_back(nextId++, name)`.  The owner
string is taken from the console with no validation. -/
def Bank.createAccount (b : Bank) (name : String) : Bank :=
  { accounts := b.accounts ++ [⟨b.nextId, name, 0, []⟩], nextId := b.nextId + 1 }

/-- Bank::deposit: locate the account (else "Account not found"), then call
Account::deposit.  The amount is passed straight from `cin` with no
validation. -/
def Bank.deposit (b : Bank) (id : ℤ) (amount : ℤ) (ts : String) : Bank × BankResult :=
  match b.findAccount id with
  | none => (b, .notFound)
  | some _ =>
    let accounts' := updateFirst (fun a => a.id == id) (fun a => a.deposit amount ts) b.accounts
    ({ b with accounts := accounts' }, .ok)

/-- Bank::withdraw: locate the account, call Account::withdraw, report
"Insufficient funds" when it returns false.  No amount validation. -/
def Bank.withdraw (b : Bank) (id : ℤ) (amount : ℤ) (ts : String) : Bank × BankResult :=
  match b.findAccount id with
  | none => (b, .notFound)
  | some acc =>
    if (acc.withdraw amount ts).2 then
      let accounts' := updateFirst (fun a => a.id == id) (fun a => (a.withdraw amount ts).1) b.accounts
      ({ b with accounts := accounts' }, .ok)
    else (b, .insufficientFunds)

/-- Bank::transfer: locate both accounts ("Invalid account ID" when either
is missing), fail when the source balance is strictly below the amount,
otherwise transferOut on the source then transferIn on the destination.
No amount-sign check and no `from = to` check; when the ids coincide both
legs hit the same account, exactly as the two pointers alias in the
source. -/
def Bank.transfer (b : Bank) (src dst : ℤ) (amount : ℤ) (ts1 ts2 : String) : Bank × BankResult :=
  match b.findAccount src, b.findAccount dst with
  | some accFrom, some _ =>
    if accFrom.balance < amount then (b, .insufficientFunds)
    else
      let acc1 := updateFirst (fun a => a.id == src) (fun a => a.transferOut amount ts1) b.accounts
      let acc2 := updateFirst (fun a => a.id == dst) (fun a => a.transferIn amount ts2) acc1
      ({ b with accounts := acc2 }, .ok)
  | _, _ => (b, .notFound)

/-- Bank::save: concatenate the serialized blocks in insertion order. -/
def Bank.save (b : Bank) : List String :=
  (b.accounts.map Account.serialize).flatten

/-- Append a loaded account: `accounts.push_back(acc)` together with
`nextId = max(nextId, acc.getId() + 1)`. -/
def Bank.push (b : Bank) (acc : Account) : Bank :=
  { accounts := b.accounts ++ [acc], nextId := max b.nextId (acc.id + 1) }

/-- Test for the `T:` prefix (`line.rfind("T:", 0) == 0`). -/
def startsWithT (s : String) : Bool :=
  match s.toList with
  | 'T' :: ':' :: _ => true
  | _ => false

/-- Drop the first `n` characters (`line.substr(2)`). -/
def dropChars (n : ℕ) (s : String) : String := ⟨s.toList.drop n⟩

/-- The load loop of Bank::load fused with the line loop of
Account::deserialize, as a single pass over the file's lines.  Mode `none`
is the top level of Bank::load (blank lines skipped, any other line treated
as a header); mode `some acc` is inside Account::deserialize's `while`
(lines until `END` or end of file; `T:` lines append a transaction, other
lines are ignored).  A parse failure is a thrown exception: `none`. -/
def Bank.loadGo : Bank → Option Account → List String → Option Bank
  | b, none, [] => some b
  | b, some acc, [] => some (b.push acc)
  | b, none, l :: ls =>
    if l = "" then Bank.loadGo b none ls
    else
      match Account.parseHeader l with
      | none => none
      | some acc => Bank.loadGo b (some acc) ls
  | b, some acc, l :: ls =>
    if l = "END" then Bank.loadGo (b.push acc) none ls
    else if startsWithT l then
      match Transaction.deserialize (dropChars 2 l) with
      | none => none
      | some t => Bank.loadGo b (some { acc with history := acc.history ++ [t] }) ls
    else Bank.loadGo b (some acc) ls

/-- Bank::load on an openable file with the given lines. -/
def Bank.load (b : Bank) (ls : List String) : Option Bank :=
  Bank.loadGo b none ls

-- ========================================
-- Operation sequences (the public ledger interface driven by the shell)
-- ========================================

/-- One ledger operation as dispatched by Bank::run; amounts and names carry
the values read from `cin`, timestamps the clock values, `load` the file's
lines. -/
inductive Op where
  | createAccount (name : String)
  | deposit (id : ℤ) (amount : ℤ) (ts : String)
  | withdraw (id : ℤ) (amount : ℤ) (ts : String)
  | transfer (src dst : ℤ) (amount : ℤ) (ts1 ts2 : String)
  | load (lines : List String)

/-- Execute one operation; `none` is a crash during load. -/
def Bank.step (b : Bank) : Op → Option Bank
  | .createAccount name => some (b.createAccount name)
  | .deposit id a ts => some (b.deposit id a ts).1
  | .withdraw id a ts => some (b.withdraw id a ts).1
  | .transfer s d a t1 t2 => some (b.transfer s d a t1 t2).1
  | .load ls => b.load ls

/-- Execute a sequence of operations. -/
def Bank.runOps (b : Bank) : List Op → Option Bank
  | [] => some b
  | op :: ops =>
    match b.step op with
    | none => none
    | some b' => b'.runOps ops

/-- Whether an operation is a load. -/
def Op.isLoad : Op → Bool
  | .load _ => true
  | _ => false

/-- Whether an operation's amount (if any) is strictly positive. -/
def Op.posAmount : Op → Bool
  | .deposit _ a _ => decide (0 < a)
  | .withdraw _ a _ => decide (0 < a)
  | .transfer _ _ a _ _ => decide (0 < a)
  | _ => true

-- ========================================
-- Spec-side quantities (from the specification's words)
-- ========================================

/-- Sign convention of the spec: +amount for DEPOSIT/TRANSFER_IN, -amount
for WITHDRAW/TRANSFER_OUT (spec §8). -/
def signedAmount (t : Transaction) : ℤ :=
  if t.type = "DEPOSIT" then t.amount
  else if t.type = "TRANSFER_IN" then t.amount
  else if t.type = "WITHDRAW" then -t.amount
  else if t.type = "TRANSFER_OUT" then -t.amount
  else 0

/-- Signed reduction of a history (spec §8). -/
def signedSum (h : List Transaction) : ℤ := (h.map signedAmount).sum

/-- Invariant (a) of spec §3: every balance equals the reduction of its
history. -/
def BalInv (b : Bank) : Prop := ∀ acc ∈ b.accounts, acc.balance = signedSum acc.history

/-- Invariant (d) of spec §3: balances are nonnegative. -/
def NonNegInv (b : Bank) : Prop := ∀ acc ∈ b.accounts, 0 ≤ acc.balance

/-- Invariant (b) of spec §3: `nextId` strictly exceeds every existing id. -/
def IdInv (b : Bank) : Prop := ∀ acc ∈ b.accounts, acc.id < b.nextId

/-- Sum of all balances in the ledger. -/
def totalBalance (b : Bank) : ℤ := (b.accounts.map Account.balance).sum

-- ========================================
-- Rendering / parsing round-trip lemmas
-- ========================================

theorem natDigitsAux_eq (fuel : ℕ) : ∀ n, n ≤ fuel → natDigitsAux fuel n = Nat.digits 10 n := by
  induction fuel with
  | zero =>
    intro n hn
    interval_cases n
    simp [natDigitsAux]
  | succ f ih =>
    intro n hn
    by_cases h0 : n = 0
    · subst h0; simp [natDigitsAux]
    · rw [natDigitsAux, if_neg h0,
        Nat.digits_def' (by norm_num : (1 : ℕ) < 10) (Nat.pos_of_ne_zero h0),
        ih (n / 10) (by omega)]

theorem decChar_toNat {d : ℕ} (h : d < 10) : (decChar d).toNat = 48 + d := by
  interval_cases d <;> decide

theorem isDecDigit_decChar {d : ℕ} (h : d < 10) : isDecDigit (decChar d) = true := by
  interval_cases d <;> decide

theorem foldr_decChar_digits : ∀ ds : List ℕ, (∀ d ∈ ds, d < 10) →
    (ds.map decChar).foldr (fun c a => 10 * a + (c.toNat - 48)) 0 = Nat.ofDigits 10 ds := by
  intro ds
  induction ds with
  | nil => intro _; simp [Nat.ofDigits]
  | cons d ds ih =>
    intro h
    simp only [List.map_cons, List.foldr_cons, Nat.ofDigits_cons]
    rw [ih (fun x hx => h x (List.mem_cons_of_mem _ hx)),
      decChar_toNat (h d (List.mem_cons_self _ _))]
    omega

theorem natToStr_all_digits (n : ℕ) : ∀ c ∈ (natToStr n).toList, isDecDigit c = true := by
  by_cases h0 : n = 0
  · subst h0; decide
  · rw [natToStr, if_neg h0]
    intro c hc
    have hc' : c ∈ (natDigitsAux n n).reverse.map decChar := hc
    rcases List.mem_map.mp hc' with ⟨d, hd, rfl⟩
    have hd' : d ∈ natDigitsAux n n := List.mem_reverse.mp hd
    rw [natDigitsAux_eq n n le_rfl] at hd'
    exact isDecDigit_decChar (Nat.digits_lt_base (by norm_num) hd')

theorem natToStr_ne_nil (n : ℕ) : (natToStr n).toList ≠ [] := by
  by_cases h0 : n = 0
  · subst h0; decide
  · rw [natToStr, if_neg h0]
    have h1 : Nat.digits 10 n ≠ [] := Nat.digits_ne_nil_iff_ne_zero.mpr h0
    show (natDigitsAux n n).reverse.map decChar ≠ []
    rw [natDigitsAux_eq n n le_rfl]
    simp [h1]

theorem parseNatCh_natToStr (n : ℕ) : parseNatCh (natToStr n).toList = some n := by
  by_cases h0 : n = 0
  · subst h0; decide
  · have hd : natDigitsAux n n = Nat.digits 10 n := natDigitsAux_eq n n le_rfl
    have hlt : ∀ d ∈ Nat.digits 10 n, d < 10 :=
      fun d hd' => Nat.digits_lt_base (by norm_num) hd'
    rw [natToStr, if_neg h0]
    show parseNatCh ((natDigitsAux n n).reverse.map decChar) = some n
    rw [hd]
    have hcond : (decide ((Nat.digits 10 n).reverse.map decChar ≠ []) &&
        ((Nat.digits 10 n).reverse.map decChar).all isDecDigit) = true := by
      simp
      exact ⟨Nat.digits_ne_nil_iff_ne_zero.mpr h0, fun a ha => isDecDigit_decChar (hlt a ha)⟩
    rw [parseNatCh, if_pos hcond]
    congr 1
    rw [List.map_reverse, List.foldl_reverse]
    have h2 := foldr_decChar_digits (Nat.digits 10 n) hlt
    simpa [Nat.ofDigits_digits] using h2

theorem not_mem_natToStr {c : Char} (hc : isDecDigit c = false) (n : ℕ) :
    c ∉ (natToStr n).toList := by
  intro hmem
  have h1 := natToStr_all_digits n c hmem
  rw [hc] at h1
  exact Bool.noConfusion h1

theorem intToStr_toList (i : ℤ) :
    (intToStr i).toList =
      if i < 0 then '-' :: (natToStr i.natAbs).toList else (natToStr i.natAbs).toList := by
  rw [intToStr]
  split
  · show ("-" ++ natToStr i.natAbs).data = _
    rw [String.data_append]
    rfl
  · rfl

theorem not_mem_intToStr {c : Char} (hc : isDecDigit c = false) (hc2 : c ≠ '-') (i : ℤ) :
    c ∉ (intToStr i).toList := by
  rw [intToStr_toList]
  split
  · intro hmem
    rcases List.mem_cons.mp hmem with h | h
    · exact hc2 h
    · exact not_mem_natToStr hc _ h
  · exact not_mem_natToStr hc _

theorem intToStr_ne_nil (i : ℤ) : (intToStr i).toList ≠ [] := by
  rw [intToStr_toList]
  split
  · simp
  · exact natToStr_ne_nil _

theorem parseIntCh_of_digits (cs : List Char) (h : ∀ c ∈ cs, isDecDigit c = true) :
    parseIntCh cs = (parseNatCh cs).map (fun n => (n : ℤ)) := by
  unfold parseIntCh
  split
  · rename_i rest
    have h1 := h '-' (List.mem_cons_self _ _)
    exact absurd h1 (by decide)
  · rfl

theorem parseIntCh_intToStr (i : ℤ) : parseIntCh (intToStr i).toList = some i := by
  by_cases hneg : i < 0
  · rw [intToStr_toList, if_pos hneg]
    show (parseNatCh (natToStr i.natAbs).toList).map (fun n => -(n : ℤ)) = some i
    rw [parseNatCh_natToStr]
    show some (-(i.natAbs : ℤ)) = some i
    exact congrArg some (by omega)
  · rw [intToStr_toList, if_neg hneg,
      parseIntCh_of_digits _ (natToStr_all_digits _), parseNatCh_natToStr]
    simp
    omega

theorem strToInt_intToStr (i : ℤ) : strToInt (intToStr i) = some i :=
  parseIntCh_intToStr i

theorem splitCh_not_mem {c : Char} : ∀ {l : List Char}, c ∉ l → splitCh c l = [l] := by
  intro l
  induction l with
  | nil => intro _; rfl
  | cons x xs ih =>
    intro h
    have hx : ¬x = c := fun he => h (he ▸ List.mem_cons_self x xs)
    have ih' := ih (fun hm => h (List.mem_cons_of_mem _ hm))
    simp [splitCh, hx, ih']

theorem splitCh_append {c : Char} : ∀ {l1 : List Char} (l2 : List Char), c ∉ l1 →
    splitCh c (l1 ++ c :: l2) = l1 :: splitCh c l2 := by
  intro l1
  induction l1 with
  | nil => intro l2 _; simp [splitCh]
  | cons x xs ih =>
    intro l2 h
    have hx : ¬x = c := fun he => h (he ▸ List.mem_cons_self x xs)
    have ih' := ih l2 (fun hm => h (List.mem_cons_of_mem _ hm))
    simp [splitCh, hx, ih']

theorem String.mk_toList (s : String) : (⟨s.toList⟩ : String) = s := rfl

theorem Transaction.deserialize_serialize (t : Transaction)
    (h1 : '|' ∉ t.timestamp.toList) (h2 : '|' ∉ t.type.toList) :
    Transaction.deserialize t.serialize = some t := by
  have hpipe : '|' ∉ (intToStr t.amount).toList :=
    not_mem_intToStr (by decide) (by decide) _
  have hdat : (t.serialize).toList
      = t.timestamp.toList ++ '|' :: (t.type.toList ++ '|' :: (intToStr t.amount).toList) := by
    show (t.timestamp ++ "|" ++ t.type ++ "|" ++ intToStr t.amount).data = _
    simp [String.data_append]
  rw [Transaction.deserialize]
  rw [hdat, splitCh_append _ h1, splitCh_append _ h2, splitCh_not_mem hpipe]
  show (match strToInt ((([t.timestamp.toList, t.type.toList,
      (intToStr t.amount).toList].map (fun l => (⟨l⟩ : String))).getD 2 "")) with
    | none => none
    | some a => some ⟨_, _, a⟩ : Option Transaction) = some t
  simp only [List.map_cons, List.map_nil, List.getD, String.mk_toList]
  show (match strToInt (intToStr t.amount) with
    | none => none
    | some a => some ⟨t.timestamp, t.type, a⟩ : Option Transaction) = some t
  rw [strToInt_intToStr]

theorem Account.parseHeader_serialize (id : ℤ) (o : String) (bal : ℤ)
    (h : ';' ∉ o.toList) :
    Account.parseHeader (intToStr id ++ ";" ++ o ++ ";" ++ intToStr bal)
      = some ⟨id, o, bal, []⟩ := by
  have hsemi1 : ';' ∉ (intToStr id).toList := not_mem_intToStr (by decide) (by decide) _
  have hsemi2 : ';' ∉ (intToStr bal).toList := not_mem_intToStr (by decide) (by decide) _
  have hdat : (intToStr id ++ ";" ++ o ++ ";" ++ intToStr bal).toList
      = (intToStr id).toList ++ ';' :: (o.toList ++ ';' :: (intToStr bal).toList) := by
    show (intToStr id ++ ";" ++ o ++ ";" ++ intToStr bal).data = _
    simp [String.data_append]
  rw [Account.parseHeader]
  rw [hdat, splitCh_append _ hsemi1, splitCh_append _ h, splitCh_not_mem hsemi2]
  simp only [List.map_cons, List.map_nil, List.getD, String.mk_toList]
  show (match strToInt (intToStr id), strToInt (intToStr bal) with
    | some i, some b => some ⟨i, o, b, []⟩
    | _, _ => none : Option Account) = some ⟨id, o, bal, []⟩
  rw [strToInt_intToStr, strToInt_intToStr]

theorem tline_toList (s : String) : ("T:" ++ s).toList = 'T' :: ':' :: s.toList := by
  show ("T:" ++ s).data = _
  rw [String.data_append]
  rfl

theorem tline_ne_end (s : String) : ("T:" ++ s) ≠ "END" := by
  intro h
  have h1 := congrArg String.toList h
  rw [tline_toList] at h1
  have h2 : 'T' = 'E' := by
    have : ('T' :: ':' :: s.toList).headD ' ' = (("END" : String).toList).headD ' ' := by rw [h1]
    exact this
  exact absurd h2 (by decide)

theorem startsWithT_tline (s : String) : startsWithT ("T:" ++ s) = true := by
  rw [startsWithT, tline_toList]
  rfl

theorem dropChars_tline (s : String) : dropChars 2 ("T:" ++ s) = s := by
  rw [dropChars, tline_toList]
  exact String.mk_toList s

theorem header_ne_empty (id : ℤ) (o : String) (bal : ℤ) :
    (intToStr id ++ ";" ++ o ++ ";" ++ intToStr bal) ≠ "" := by
  intro h
  have h1 := congrArg String.toList h
  have h2 : (intToStr id ++ ";" ++ o ++ ";" ++ intToStr bal).toList
      = (intToStr id).toList ++ ';' :: (o.toList ++ ';' :: (intToStr bal).toList) := by
    show (intToStr id ++ ";" ++ o ++ ";" ++ intToStr bal).data = _
    simp [String.data_append]
  rw [h2] at h1
  have h3 := intToStr_ne_nil id
  simp at h1

/-- Delimiter-cleanliness of one transaction: its free-text fields contain
neither the field delimiter `|` nor a newline. -/
def cleanTransaction (t : Transaction) : Prop :=
  '|' ∉ t.timestamp.toList ∧ '\n' ∉ t.timestamp.toList ∧
  '|' ∉ t.type.toList ∧ '\n' ∉ t.type.toList

/-- Delimiter-cleanliness of one account: non-empty owner without `;` or
newline, and clean transactions. -/
def cleanAccount (a : Account) : Prop :=
  a.owner ≠ "" ∧ ';' ∉ a.owner.toList ∧ '\n' ∉ a.owner.toList ∧
  ∀ t ∈ a.history, cleanTransaction t

theorem loadGo_tlines (b : Bank) (ls : List String) :
    ∀ (hist : List Transaction) (acc : Account), (∀ t ∈ hist, cleanTransaction t) →
    Bank.loadGo b (some acc) ((hist.map (fun t => "T:" ++ t.serialize)) ++ "END" :: ls)
      = Bank.loadGo (b.push { acc with history := acc.history ++ hist }) none ls := by
  intro hist
  induction hist with
  | nil =>
    intro acc _
    simp only [List.map_nil, List.nil_append]
    simp only [Bank.loadGo, if_pos rfl]
    simp
  | cons t ts ih =>
    intro acc hclean
    have hct := hclean t (List.mem_cons_self _ _)
    simp only [List.map_cons, List.cons_append]
    simp only [Bank.loadGo, if_neg (tline_ne_end t.serialize), startsWithT_tline,
      dropChars_tline, if_true]
    rw [Transaction.deserialize_serialize t hct.1 hct.2.2.1]
    show Bank.loadGo b (some { acc with history := acc.history ++ [t] })
        (ts.map (fun t => "T:" ++ t.serialize) ++ "END" :: ls) = _
    rw [ih { acc with history := acc.history ++ [t] }
      (fun x hx => hclean x (List.mem_cons_of_mem _ hx))]
    simp [List.append_assoc]

theorem loadGo_block (b : Bank) (a : Account) (ls : List String)
    (ho : ';' ∉ a.owner.toList) (hh : ∀ t ∈ a.history, cleanTransaction t) :
    Bank.loadGo b none (a.serialize ++ ls) = Bank.loadGo (b.push a) none ls := by
  have hser : a.serialize ++ ls
      = (intToStr a.id ++ ";" ++ a.owner ++ ";" ++ intToStr a.balance)
        :: (a.history.map (fun t => "T:" ++ t.serialize) ++ "END" :: ls) := by
    simp [Account.serialize]
  rw [hser]
  simp only [Bank.loadGo, if_neg (header_ne_empty a.id a.owner a.balance)]
  rw [Account.parseHeader_serialize a.id a.owner a.balance ho]
  show Bank.loadGo b (some ⟨a.id, a.owner, a.balance, []⟩)
      (a.history.map (fun t => "T:" ++ t.serialize) ++ "END" :: ls) = _
  rw [loadGo_tlines b ls a.history ⟨a.id, a.owner, a.balance, []⟩ hh]
  rfl

theorem load_save_aux : ∀ (accs : List Account) (b : Bank),
    (∀ a ∈ accs, ';' ∉ a.owner.toList ∧ ∀ t ∈ a.history, cleanTransaction t) →
    Bank.loadGo b none (accs.map Account.serialize).flatten
      = some ⟨b.accounts ++ accs, accs.foldl (fun n a => max n (a.id + 1)) b.nextId⟩ := by
  intro accs
  induction accs with
  | nil =>
    intro b _
    show some b = some ⟨b.accounts ++ [], b.nextId⟩
    simp
  | cons a as ih =>
    intro b h
    have ha := h a (List.mem_cons_self _ _)
    simp only [List.map_cons, List.flatten_cons]
    rw [loadGo_block b a _ ha.1 ha.2]
    rw [ih (b.push a) (fun x hx => h x (List.mem_cons_of_mem _ hx))]
    simp [Bank.push, List.append_assoc]

-- ========================================
-- Lemmas about updateFirst (pointer mutation) and findAccount
-- ========================================

theorem mem_updateFirst {p : Account → Bool} {f : Account → Account} :
    ∀ {l : List Account} {x : Account}, x ∈ updateFirst p f l →
      x ∈ l ∨ ∃ y, l.find? p = some y ∧ x = f y := by
  intro l
  induction l with
  | nil => intro x hx; exact absurd hx (List.not_mem_nil x)
  | cons a as ih =>
    intro x hx
    by_cases hpa : p a = true
    · rw [updateFirst, if_pos hpa] at hx
      rcases List.mem_cons.mp hx with h | h
      · right; exact ⟨a, by rw [List.find?_cons_of_pos _ hpa], h⟩
      · left; exact List.mem_cons_of_mem _ h
    · rw [updateFirst, if_neg hpa] at hx
      rcases List.mem_cons.mp hx with h | h
      · left; exact h ▸ List.mem_cons_self _ _
      · rcases ih h with h' | ⟨y, hy, hxy⟩
        · left; exact List.mem_cons_of_mem _ h'
        · right
          refine ⟨y, ?_, hxy⟩
          rw [List.find?_cons_of_neg _ hpa]
          exact hy

theorem find?_updateFirst {p : Account → Bool} {f : Account → Account}
    (hp : ∀ x, p (f x) = p x) :
    ∀ l : List Account, (updateFirst p f l).find? p = (l.find? p).map f := by
  intro l
  induction l with
  | nil => rfl
  | cons a as ih =>
    by_cases hpa : p a = true
    · rw [updateFirst, if_pos hpa, List.find?_cons_of_pos _ (by rw [hp]; exact hpa),
        List.find?_cons_of_pos _ hpa]
      rfl
    · rw [updateFirst, if_neg hpa, List.find?_cons_of_neg _ hpa,
        List.find?_cons_of_neg _ (by simpa using hpa)]
      exact ih

theorem find?_updateFirst_other {p q : Account → Bool} {f : Account → Account}
    (hq : ∀ x, q (f x) = q x) (hpq : ∀ x, p x = true → q x = false) :
    ∀ l : List Account, (updateFirst p f l).find? q = l.find? q := by
  intro l
  induction l with
  | nil => rfl
  | cons a as ih =>
    by_cases hpa : p a = true
    · have hqa : q a = false := hpq a hpa
      rw [updateFirst, if_pos hpa, List.find?_cons_of_neg _ (by rw [hq]; simp [hqa]),
        List.find?_cons_of_neg _ (by simp [hqa])]
    · rw [updateFirst, if_neg hpa]
      by_cases hqa : q a = true
      · rw [List.find?_cons_of_pos _ hqa, List.find?_cons_of_pos _ hqa]
      · rw [List.find?_cons_of_neg _ hqa, List.find?_cons_of_neg _ hqa]
        exact ih

theorem sum_updateFirst {p : Account → Bool} {f : Account → Account} (g : Account → ℤ) :
    ∀ {l : List Account} {y : Account}, l.find? p = some y →
      ((updateFirst p f l).map g).sum = (l.map g).sum + (g (f y) - g y) := by
  intro l
  induction l with
  | nil => intro y hy; exact absurd hy (by simp)
  | cons a as ih =>
    intro y hy
    by_cases hpa : p a = true
    · rw [List.find?_cons_of_pos _ hpa] at hy
      obtain rfl : a = y := Option.some.inj hy
      rw [updateFirst, if_pos hpa]
      simp only [List.map_cons, List.sum_cons]
      ring
    · rw [List.find?_cons_of_neg _ hpa] at hy
      rw [updateFirst, if_neg hpa]
      simp only [List.map_cons, List.sum_cons, ih hy]
      ring

-- ========================================
-- Small facts about the Account primitives
-- ========================================

theorem Account.deposit_id (a : Account) (x : ℤ) (ts : String) : (a.deposit x ts).id = a.id := rfl

theorem Account.withdraw_fst_id (a : Account) (x : ℤ) (ts : String) :
    ((a.withdraw x ts).1).id = a.id := by
  unfold Account.withdraw
  split <;> rfl

theorem Account.transferOut_id (a : Account) (x : ℤ) (ts : String) :
    (a.transferOut x ts).id = a.id := rfl

theorem Account.transferIn_id (a : Account) (x : ℤ) (ts : String) :
    (a.transferIn x ts).id = a.id := rfl

theorem Account.withdraw_of_le (a : Account) (x : ℤ) (ts : String) (h : ¬a.balance < x) :
    a.withdraw x ts
      = ({ a with balance := a.balance - x
                  history := a.history ++ [⟨ts, "WITHDRAW", x⟩] }, true) := by
  unfold Account.withdraw
  rw [if_neg h]

theorem Account.withdraw_of_lt (a : Account) (x : ℤ) (ts : String) (h : a.balance < x) :
    a.withdraw x ts = (a, false) := by
  unfold Account.withdraw
  rw [if_pos h]

theorem signedAmount_deposit (ts : String) (x : ℤ) : signedAmount ⟨ts, "DEPOSIT", x⟩ = x := rfl

theorem signedAmount_withdraw (ts : String) (x : ℤ) : signedAmount ⟨ts, "WITHDRAW", x⟩ = -x := rfl

theorem signedAmount_out (ts : String) (x : ℤ) : signedAmount ⟨ts, "TRANSFER_OUT", x⟩ = -x := rfl

theorem signedAmount_in (ts : String) (x : ℤ) : signedAmount ⟨ts, "TRANSFER_IN", x⟩ = x := rfl

theorem signedSum_append (h : List Transaction) (t : Transaction) :
    signedSum (h ++ [t]) = signedSum h + signedAmount t := by
  simp [signedSum]

-- ========================================
-- Invariant preservation lemmas
-- ========================================

theorem IdInv_push {b : Bank} (acc : Account) (h : IdInv b) : IdInv (b.push acc) := by
  intro x hx
  rcases List.mem_append.mp hx with h1 | h1
  · exact lt_of_lt_of_le (h x h1) (le_max_left _ _)
  · have hx2 : x = acc := by simpa using h1
    subst hx2
    exact lt_of_lt_of_le (by omega) (le_max_right _ _)

theorem loadGo_IdInv : ∀ (ls : List String) (b : Bank) (oacc : Option Account) (b' : Bank),
    IdInv b → Bank.loadGo b oacc ls = some b' → IdInv b' ∧ b.nextId ≤ b'.nextId := by
  intro ls
  induction ls with
  | nil =>
    intro b oacc b' hb h
    cases oacc with
    | none =>
      obtain rfl := Option.some.inj h
      exact ⟨hb, le_refl _⟩
    | some acc =>
      obtain rfl := Option.some.inj h
      exact ⟨IdInv_push acc hb, le_max_left _ _⟩
  | cons l ls ih =>
    intro b oacc b' hb h
    cases oacc with
    | none =>
      simp only [Bank.loadGo] at h
      by_cases hl : l = ""
      · rw [if_pos hl] at h
        exact ih b none b' hb h
      · rw [if_neg hl] at h
        cases hph : Account.parseHeader l with
        | none => rw [hph] at h; exact absurd h (by simp)
        | some acc => rw [hph] at h; exact ih b (some acc) b' hb h
    | some acc =>
      simp only [Bank.loadGo] at h
      by_cases hl : l = "END"
      · rw [if_pos hl] at h
        have h2 := ih (b.push acc) none b' (IdInv_push acc hb) h
        exact ⟨h2.1, le_trans (le_max_left _ _) h2.2⟩
      · rw [if_neg hl] at h
        by_cases hT : startsWithT l = true
        · rw [hT, if_pos rfl] at h
          cases hdes : Transaction.deserialize (dropChars 2 l) with
          | none => rw [hdes] at h; exact absurd h (by simp)
          | some t => rw [hdes] at h; exact ih b (some _) b' hb h
        · rw [if_neg hT] at h
          exact ih b (some acc) b' hb h

theorem IdInv_updateFirst {b : Bank} {p : Account → Bool} {f : Account → Account}
    (hf : ∀ x, (f x).id = x.id) (hb : IdInv b) :
    IdInv ⟨updateFirst p f b.accounts, b.nextId⟩ := by
  intro x hx
  rcases mem_updateFirst hx with h | ⟨y, hy, rfl⟩
  · exact hb x h
  · show (f y).id < b.nextId
    rw [hf y]
    exact hb y (List.mem_of_find?_eq_some hy)

theorem step_IdInv {b b' : Bank} {op : Op} (hb : IdInv b) (h : b.step op = some b') :
    IdInv b' ∧ b.nextId ≤ b'.nextId := by
  cases op with
  | createAccount name =>
    obtain rfl := Option.some.inj h
    constructor
    · intro x hx
      rcases List.mem_append.mp hx with h1 | h1
      · exact lt_trans (hb x h1) (by simp [Bank.createAccount])
      · have hx2 : x = ⟨b.nextId, name, 0, []⟩ := by simpa using h1
        subst hx2
        simp [Bank.createAccount]
    · simp [Bank.createAccount]
  | deposit id a ts =>
    obtain rfl := Option.some.inj h
    cases hfind : b.findAccount id with
    | none => simp only [Bank.deposit, hfind]; exact ⟨hb, le_refl _⟩
    | some acc =>
      simp only [Bank.deposit, hfind]
      exact ⟨IdInv_updateFirst (fun x => Account.deposit_id x a ts) hb, le_refl _⟩
  | withdraw id a ts =>
    obtain rfl := Option.some.inj h
    cases hfind : b.findAccount id with
    | none => simp only [Bank.withdraw, hfind]; exact ⟨hb, le_refl _⟩
    | some acc =>
      simp only [Bank.withdraw, hfind]
      by_cases hw : (acc.withdraw a ts).2 = true
      · rw [if_pos hw]
        exact ⟨IdInv_updateFirst (fun x => Account.withdraw_fst_id x a ts) hb, le_refl _⟩
      · rw [if_neg hw]
        exact ⟨hb, le_refl _⟩
  | transfer src dst a t1 t2 =>
    obtain rfl := Option.some.inj h
    cases hfs : b.findAccount src with
    | none => simp only [Bank.transfer, hfs]; exact ⟨hb, le_refl _⟩
    | some accFrom =>
      cases hfd : b.findAccount dst with
      | none => simp only [Bank.transfer, hfs, hfd]; exact ⟨hb, le_refl _⟩
      | some accTo =>
        simp only [Bank.transfer, hfs, hfd]
        by_cases hlt : accFrom.balance < a
        · rw [if_pos hlt]
          exact ⟨hb, le_refl _⟩
        · rw [if_neg hlt]
          refine ⟨?_, le_refl _⟩
          have h1 : IdInv ⟨updateFirst (fun x => x.id == src)
              (fun x => x.transferOut a t1) b.accounts, b.nextId⟩ :=
            IdInv_updateFirst (fun x => Account.transferOut_id x a t1) hb
          exact IdInv_updateFirst (b := ⟨updateFirst (fun x => x.id == src)
            (fun x => x.transferOut a t1) b.accounts, b.nextId⟩)
            (fun x => Account.transferIn_id x a t2) h1
  | load ls =>
    exact loadGo_IdInv ls b none b' hb h

theorem accBal_deposit {y : Account} (a : ℤ) (ts : String)
    (h : y.balance = signedSum y.history) :
    (y.deposit a ts).balance = signedSum (y.deposit a ts).history := by
  show y.balance + a = signedSum (y.history ++ [⟨ts, "DEPOSIT", a⟩])
  rw [signedSum_append, signedAmount_deposit, h]

theorem accBal_withdraw {y : Account} (a : ℤ) (ts : String)
    (h : y.balance = signedSum y.history) :
    ((y.withdraw a ts).1).balance = signedSum ((y.withdraw a ts).1).history := by
  by_cases hlt : y.balance < a
  · rw [Account.withdraw_of_lt y a ts hlt]
    exact h
  · rw [Account.withdraw_of_le y a ts hlt]
    show y.balance - a = signedSum (y.history ++ [⟨ts, "WITHDRAW", a⟩])
    rw [signedSum_append, signedAmount_withdraw, h]
    omega

theorem accBal_transferOut {y : Account} (a : ℤ) (ts : String)
    (h : y.balance = signedSum y.history) :
    (y.transferOut a ts).balance = signedSum (y.transferOut a ts).history := by
  show y.balance - a = signedSum (y.history ++ [⟨ts, "TRANSFER_OUT", a⟩])
  rw [signedSum_append, signedAmount_out, h]
  omega

theorem accBal_transferIn {y : Account} (a : ℤ) (ts : String)
    (h : y.balance = signedSum y.history) :
    (y.transferIn a ts).balance = signedSum (y.transferIn a ts).history := by
  show y.balance + a = signedSum (y.history ++ [⟨ts, "TRANSFER_IN", a⟩])
  rw [signedSum_append, signedAmount_in, h]

theorem step_BalInv {b b' : Bank} {op : Op} (hop : op.isLoad = false)
    (hb : BalInv b) (h : b.step op = some b') : BalInv b' := by
  cases op with
  | load ls => simp [Op.isLoad] at hop
  | createAccount name =>
    obtain rfl := Option.some.inj h
    intro x hx
    rcases List.mem_append.mp hx with h1 | h1
    · exact hb x h1
    · have hx2 : x = ⟨b.nextId, name, 0, []⟩ := by simpa using h1
      subst hx2
      simp [signedSum]
  | deposit id a ts =>
    obtain rfl := Option.some.inj h
    cases hfind : b.findAccount id with
    | none => simp only [Bank.deposit, hfind]; exact hb
    | some acc =>
      intro x hx
      simp only [Bank.deposit, hfind] at hx
      rcases mem_updateFirst hx with hmem | ⟨y, hy, rfl⟩
      · exact hb x hmem
      · exact accBal_deposit a ts (hb y (List.mem_of_find?_eq_some hy))
  | withdraw id a ts =>
    obtain rfl := Option.some.inj h
    cases hfind : b.findAccount id with
    | none => simp only [Bank.withdraw, hfind]; exact hb
    | some acc =>
      intro x hx
      simp only [Bank.withdraw, hfind] at hx
      by_cases hw : (acc.withdraw a ts).2 = true
      · rw [if_pos hw] at hx
        simp only at hx
        rcases mem_updateFirst hx with hmem | ⟨y, hy, rfl⟩
        · exact hb x hmem
        · exact accBal_withdraw a ts (hb y (List.mem_of_find?_eq_some hy))
      · rw [if_neg hw] at hx
        exact hb x hx
  | transfer src dst a t1 t2 =>
    obtain rfl := Option.some.inj h
    cases hfs : b.findAccount src with
    | none => simp only [Bank.transfer, hfs]; exact hb
    | some accFrom =>
      cases hfd : b.findAccount dst with
      | none => simp only [Bank.transfer, hfs, hfd]; exact hb
      | some accTo =>
        by_cases hlt : accFrom.balance < a
        · simp only [Bank.transfer, hfs, hfd, if_pos hlt]
          exact hb
        · intro x hx
          simp only [Bank.transfer, hfs, hfd, if_neg hlt] at hx
          have hmid : ∀ x ∈ updateFirst (fun a_1 => a_1.id == src)
              (fun a_1 => a_1.transferOut a t1) b.accounts,
              x.balance = signedSum x.history := by
            intro z hz
            rcases mem_updateFirst hz with hm | ⟨y, hy, rfl⟩
            · exact hb z hm
            · exact accBal_transferOut a t1 (hb y (List.mem_of_find?_eq_some hy))
          rcases mem_updateFirst hx with hm | ⟨y, hy, rfl⟩
          · exact hmid x hm
          · exact accBal_transferIn a t2 (hmid y (List.mem_of_find?_eq_some hy))

theorem withdraw_snd_true {acc : Account} {a : ℤ} {ts : String}
    (hw : (acc.withdraw a ts).2 = true) : ¬acc.balance < a := by
  intro hlt
  rw [Account.withdraw_of_lt acc a ts hlt] at hw
  exact Bool.noConfusion hw

theorem step_NonNeg {b b' : Bank} {op : Op} (hop : op.isLoad = false)
    (hpos : op.posAmount = true) (hb : NonNegInv b) (h : b.step op = some b') :
    NonNegInv b' := by
  cases op with
  | load ls => simp [Op.isLoad] at hop
  | createAccount name =>
    obtain rfl := Option.some.inj h
    intro x hx
    rcases List.mem_append.mp hx with h1 | h1
    · exact hb x h1
    · have hx2 : x = ⟨b.nextId, name, 0, []⟩ := by simpa using h1
      subst hx2
      exact le_refl 0
  | deposit id a ts =>
    have ha : 0 < a := of_decide_eq_true hpos
    obtain rfl := Option.some.inj h
    cases hfind : b.findAccount id with
    | none => simp only [Bank.deposit, hfind]; exact hb
    | some acc =>
      intro x hx
      simp only [Bank.deposit, hfind] at hx
      rcases mem_updateFirst hx with hmem | ⟨y, hy, rfl⟩
      · exact hb x hmem
      · show 0 ≤ y.balance + a
        have := hb y (List.mem_of_find?_eq_some hy)
        omega
  | withdraw id a ts =>
    obtain rfl := Option.some.inj h
    cases hfind : b.findAccount id with
    | none => simp only [Bank.withdraw, hfind]; exact hb
    | some acc =>
      intro x hx
      simp only [Bank.withdraw, hfind] at hx
      by_cases hw : (acc.withdraw a ts).2 = true
      · rw [if_pos hw] at hx
        simp only at hx
        have hle : ¬acc.balance < a := withdraw_snd_true hw
        rcases mem_updateFirst hx with hmem | ⟨y, hy, rfl⟩
        · exact hb x hmem
        · have hya : y = acc := Option.some.inj (hy.symm.trans hfind)
          subst hya
          rw [Account.withdraw_of_le y a ts hle]
          show 0 ≤ y.balance - a
          omega
      · rw [if_neg hw] at hx
        exact hb x hx
  | transfer src dst a t1 t2 =>
    have ha : 0 < a := of_decide_eq_true hpos
    obtain rfl := Option.some.inj h
    cases hfs : b.findAccount src with
    | none => simp only [Bank.transfer, hfs]; exact hb
    | some accFrom =>
      cases hfd : b.findAccount dst with
      | none => simp only [Bank.transfer, hfs, hfd]; exact hb
      | some accTo =>
        by_cases hlt : accFrom.balance < a
        · simp only [Bank.transfer, hfs, hfd, if_pos hlt]
          exact hb
        · intro x hx
          simp only [Bank.transfer, hfs, hfd, if_neg hlt] at hx
          have hmid : ∀ x ∈ updateFirst (fun a_1 => a_1.id == src)
              (fun a_1 => a_1.transferOut a t1) b.accounts, 0 ≤ x.balance := by
            intro z hz
            rcases mem_updateFirst hz with hm | ⟨y, hy, rfl⟩
            · exact hb z hm
            · have hya : y = accFrom := Option.some.inj (hy.symm.trans hfs)
              subst hya
              show 0 ≤ y.balance - a
              omega
          rcases mem_updateFirst hx with hm | ⟨y, hy, rfl⟩
          · exact hmid x hm
          · show 0 ≤ y.balance + a
            have := hmid y (List.mem_of_find?_eq_some hy)
            omega

instance (b : Bank) : Decidable (BalInv b) :=
  inferInstanceAs (Decidable (∀ acc ∈ b.accounts, acc.balance = signedSum acc.history))

instance (b : Bank) : Decidable (NonNegInv b) :=
  inferInstanceAs (Decidable (∀ acc ∈ b.accounts, 0 ≤ acc.balance))

instance (b : Bank) : Decidable (IdInv b) :=
  inferInstanceAs (Decidable (∀ acc ∈ b.accounts, acc.id < b.nextId))

instance (a : Account) : Decidable (cleanAccount a) := by
  unfold cleanAccount cleanTransaction
  infer_instance

-- ========================================
-- Claims
-- ========================================

/-- C1, counterexample: the claim quantifies over sequences that include
`load`, but `load` copies the header balance without reconciling it against
the transaction lines.  Loading the two-line file `1;A;100`, `END` yields an
account with balance 100 and empty history, whose signed history sum is 0. -/
theorem C1_counterexample :
    Bank.runOps initBank [Op.load ["1;A;100", "END"]]
        = some ⟨[⟨1, "A", 100, []⟩], 2⟩
      ∧ (100 : ℤ) ≠ signedSum ([] : List Transaction) := by
  constructor
  · decide
  · decide

/-- C1 (amended): for every sequence of ledger operations excluding `load`
(create, deposit, withdraw, transfer) started from a state whose accounts
satisfy it (e.g. the empty initial ledger), every account's balance equals
the signed sum of its history, counting DEPOSIT and TRANSFER_IN as +amount
and WITHDRAW and TRANSFER_OUT as -amount; `load` does not re-establish the
invariant because it trusts the header balance. -/
theorem C1_balance_eq_signedSum : ∀ (ops : List Op) (b b' : Bank),
    (∀ op ∈ ops, op.isLoad = false) → BalInv b → b.runOps ops = some b' → BalInv b' := by
  intro ops
  induction ops with
  | nil =>
    intro b b' _ hb h
    obtain rfl := Option.some.inj h
    exact hb
  | cons op ops ih =>
    intro b b' hops hb h
    simp only [Bank.runOps] at h
    cases hst : b.step op with
    | none => rw [hst] at h; exact absurd h (by simp)
    | some b1 =>
      rw [hst] at h
      exact ih b1 b' (fun x hx => hops x (List.mem_cons_of_mem _ hx))
        (step_BalInv (hops op (List.mem_cons_self _ _)) hb hst) h

/-- Witness for C1: a concrete run of create, deposit 5, withdraw 2 lands in
a state satisfying the balance invariant. -/
theorem C1_witness :
    BalInv ⟨[⟨1, "A", 3, [⟨"t", "DEPOSIT", 5⟩, ⟨"u", "WITHDRAW", 2⟩]⟩], 2⟩ :=
  C1_balance_eq_signedSum [Op.createAccount "A", Op.deposit 1 5 "t", Op.withdraw 1 2 "u"]
    initBank _ (by decide) (by decide) (by decide)

/-- C2, counterexample: `Bank::deposit` performs no amount validation, so a
deposit of -5 into a fresh account is accepted and drives the balance to -5,
a reachable state with a negative balance. -/
theorem C2_counterexample :
    Bank.runOps initBank [Op.createAccount "A", Op.deposit 1 (-5) "t"]
        = some ⟨[⟨1, "A", -5, [⟨"t", "DEPOSIT", -5⟩]⟩], 2⟩
      ∧ ¬NonNegInv ⟨[⟨1, "A", -5, [⟨"t", "DEPOSIT", -5⟩]⟩], 2⟩ := by
  constructor
  · decide
  · decide

/-- C2 (amended): in every state reachable through create, deposit, withdraw
and transfer with strictly positive amounts (no `load`, which also copies
negative header balances unchecked) from a state with nonnegative balances,
every account's balance is greater than or equal to zero. -/
theorem C2_nonneg_balances : ∀ (ops : List Op) (b b' : Bank),
    (∀ op ∈ ops, op.isLoad = false ∧ op.posAmount = true) → NonNegInv b →
    b.runOps ops = some b' → NonNegInv b' := by
  intro ops
  induction ops with
  | nil =>
    intro b b' _ hb h
    obtain rfl := Option.some.inj h
    exact hb
  | cons op ops ih =>
    intro b b' hops hb h
    simp only [Bank.runOps] at h
    cases hst : b.step op with
    | none => rw [hst] at h; exact absurd h (by simp)
    | some b1 =>
      rw [hst] at h
      exact ih b1 b' (fun x hx => hops x (List.mem_cons_of_mem _ hx))
        (step_NonNeg (hops op (List.mem_cons_self _ _)).1
          (hops op (List.mem_cons_self _ _)).2 hb hst) h

/-- Witness for C2: a concrete positive-amount run keeps all balances
nonnegative. -/
theorem C2_witness :
    NonNegInv ⟨[⟨1, "B", 4, [⟨"t", "DEPOSIT", 7⟩, ⟨"u", "WITHDRAW", 3⟩]⟩], 2⟩ :=
  C2_nonneg_balances [Op.createAccount "B", Op.deposit 1 7 "t", Op.withdraw 1 3 "u"]
    initBank _ (by decide) (by decide) (by decide)

/-- C3, counterexample: a self-transfer (`from = to = 1`) of 5 on a balance
of 10 succeeds, yet the source balance does not decrease by 5 - the two
pointers alias one account, so the balance is unchanged. -/
theorem C3_counterexample :
    (Bank.transfer ⟨[⟨1, "A", 10, []⟩], 2⟩ 1 1 5 "t1" "t2").2 = BankResult.ok
      ∧ ((Bank.transfer ⟨[⟨1, "A", 10, []⟩], 2⟩ 1 1 5 "t1" "t2").1.findAccount 1).map
          Account.balance = some 10
      ∧ (10 : ℤ) ≠ 10 - 5 := by
  refine ⟨by decide, by decide, by decide⟩

/-- C3 (amended): for every transfer with distinct source and destination
that succeeds, the source balance decreases by exactly the amount, the
destination balance increases by exactly the amount, and the sum of all
balances is unchanged; on any transfer error (missing account, insufficient
funds) no account is mutated.  For a self-transfer the two legs alias one
account, which therefore keeps its balance. -/
theorem C3_transfer_deltas (b : Bank) (src dst : ℤ) (a : ℤ) (t1 t2 : String)
    (hne : src ≠ dst) :
    ((b.transfer src dst a t1 t2).2 = BankResult.ok →
      ((b.transfer src dst a t1 t2).1.findAccount src).map Account.balance
          = (b.findAccount src).map (fun x => x.balance - a)
        ∧ ((b.transfer src dst a t1 t2).1.findAccount dst).map Account.balance
          = (b.findAccount dst).map (fun x => x.balance + a)
        ∧ totalBalance (b.transfer src dst a t1 t2).1 = totalBalance b)
    ∧ ((b.transfer src dst a t1 t2).2 ≠ BankResult.ok → (b.transfer src dst a t1 t2).1 = b) := by
  have hpq1 : ∀ x : Account, (x.id == dst) = true → (x.id == src) = false := by
    intro x hx
    have h1 : x.id = dst := by simpa using hx
    rw [beq_eq_false_iff_ne]
    omega
  have hpq2 : ∀ x : Account, (x.id == src) = true → (x.id == dst) = false := by
    intro x hx
    have h1 : x.id = src := by simpa using hx
    rw [beq_eq_false_iff_ne]
    omega
  cases hfs : b.findAccount src with
  | none =>
    cases hfd : b.findAccount dst with
    | none =>
      refine ⟨fun hok => absurd hok ?_, fun _ => ?_⟩ <;>
        simp [Bank.transfer, hfs, hfd]
    | some accTo =>
      refine ⟨fun hok => absurd hok ?_, fun _ => ?_⟩ <;>
        simp [Bank.transfer, hfs, hfd]
  | some accFrom =>
    cases hfd : b.findAccount dst with
    | none =>
      refine ⟨fun hok => absurd hok ?_, fun _ => ?_⟩ <;>
        simp [Bank.transfer, hfs, hfd]
    | some accTo =>
      by_cases hlt : accFrom.balance < a
      · refine ⟨fun hok => absurd hok ?_, fun _ => ?_⟩ <;>
          simp [Bank.transfer, hfs, hfd, if_pos hlt]
      · constructor
        · intro _
          have hfind_src : Bank.findAccount (b.transfer src dst a t1 t2).1 src
              = some (accFrom.transferOut a t1) := by
            simp only [Bank.transfer, hfs, hfd, if_neg hlt]
            rw [Bank.findAccount]
            rw [find?_updateFirst_other (fun x => by rw [Account.transferIn_id]) hpq1]
            rw [find?_updateFirst (fun x => by rw [Account.transferOut_id])]
            rw [show b.accounts.find? (fun x => x.id == src) = some accFrom from hfs]
            rfl
          have hfind_dst : Bank.findAccount (b.transfer src dst a t1 t2).1 dst
              = some (accTo.transferIn a t2) := by
            simp only [Bank.transfer, hfs, hfd, if_neg hlt]
            rw [Bank.findAccount]
            rw [find?_updateFirst (fun x => by rw [Account.transferIn_id])]
            rw [find?_updateFirst_other (fun x => by rw [Account.transferOut_id]) hpq2]
            rw [show b.accounts.find? (fun x => x.id == dst) = some accTo from hfd]
            rfl
          refine ⟨?_, ?_, ?_⟩
          · rw [hfind_src]
            rfl
          · rw [hfind_dst]
            rfl
          · have hmid : b.accounts.find? (fun x => x.id == src) = some accFrom := hfs
            have hsum1 := sum_updateFirst (f := fun x => x.transferOut a t1)
              Account.balance hmid
            have hdst_mid : (updateFirst (fun x => x.id == src)
                (fun x => x.transferOut a t1) b.accounts).find? (fun x => x.id == dst)
                = some accTo := by
              rw [find?_updateFirst_other (fun x => by rw [Account.transferOut_id]) hpq2]
              exact hfd
            have hsum2 := sum_updateFirst (f := fun x => x.transferIn a t2)
              Account.balance hdst_mid
            show totalBalance (b.transfer src dst a t1 t2).1 = totalBalance b
            simp only [Bank.transfer, hfs, hfd, if_neg hlt, totalBalance]
            rw [hsum2, hsum1]
            show (b.accounts.map Account.balance).sum + (accFrom.balance - a - accFrom.balance)
                + (accTo.balance + a - accTo.balance) = (b.accounts.map Account.balance).sum
            omega
        · intro hne2
          exfalso
          apply hne2
          simp [Bank.transfer, hfs, hfd, if_neg hlt]

/-- Witness for C3: transferring 4 between the distinct accounts 1 and 2
succeeds, moves the balances to 6 and 4, and preserves the total. -/
theorem C3_witness :
    ((((⟨[⟨1, "A", 10, []⟩, ⟨2, "B", 0, []⟩], 3⟩ : Bank).transfer 1 2 4 "t1" "t2").1.findAccount 1).map
        Account.balance
      = ((⟨[⟨1, "A", 10, []⟩, ⟨2, "B", 0, []⟩], 3⟩ : Bank).findAccount 1).map
          (fun x => x.balance - 4))
    ∧ totalBalance ((⟨[⟨1, "A", 10, []⟩, ⟨2, "B", 0, []⟩], 3⟩ : Bank).transfer 1 2 4 "t1" "t2").1
      = totalBalance ⟨[⟨1, "A", 10, []⟩, ⟨2, "B", 0, []⟩], 3⟩ := by
  have h := C3_transfer_deltas ⟨[⟨1, "A", 10, []⟩, ⟨2, "B", 0, []⟩], 3⟩ 1 2 4 "t1" "t2"
    (by decide)
  exact ⟨(h.1 (by decide)).1, (h.1 (by decide)).2.2⟩

/-- C4: for an existing account and a positive amount, the ledger-level
withdraw succeeds exactly when the amount is at most the balance (so
withdrawing exactly the balance succeeds), decrementing the balance and
appending a WITHDRAW entry; when the amount exceeds the balance it reports
insufficient funds and leaves the bank completely unchanged. -/
theorem C4_withdraw_boundary (b : Bank) (id a : ℤ) (ts : String) (acc : Account)
    (hf : b.findAccount id = some acc) (ha : 0 < a) :
    (a ≤ acc.balance →
      (b.withdraw id a ts).2 = BankResult.ok
        ∧ (b.withdraw id a ts).1.findAccount id
            = some { acc with balance := acc.balance - a
                              history := acc.history ++ [⟨ts, "WITHDRAW", a⟩] })
    ∧ (acc.balance < a →
      (b.withdraw id a ts).2 = BankResult.insufficientFunds
        ∧ (b.withdraw id a ts).1 = b) := by
  constructor
  · intro hle
    have hnlt : ¬acc.balance < a := not_lt.mpr hle
    have hw : (acc.withdraw a ts).2 = true := by
      rw [Account.withdraw_of_le acc a ts hnlt]
    constructor
    · simp only [Bank.withdraw, hf]
      rw [if_pos hw]
    · have hacc : (b.withdraw id a ts).1
          = ⟨updateFirst (fun x => x.id == id) (fun x => (x.withdraw a ts).1) b.accounts,
             b.nextId⟩ := by
        simp only [Bank.withdraw, hf]
        rw [if_pos hw]
      rw [hacc, Bank.findAccount]
      show (updateFirst (fun x => x.id == id) (fun x => (x.withdraw a ts).1)
          b.accounts).find? (fun x => x.id == id) = _
      rw [find?_updateFirst (fun x => by rw [Account.withdraw_fst_id]) b.accounts]
      rw [show b.accounts.find? (fun x => x.id == id) = some acc from hf]
      show some ((acc.withdraw a ts).1) = _
      rw [Account.withdraw_of_le acc a ts hnlt]
  · intro hlt
    have hw : (acc.withdraw a ts).2 = false := by
      rw [Account.withdraw_of_lt acc a ts hlt]
    constructor
    · simp only [Bank.withdraw, hf]
      rw [if_neg (by simp [hw])]
    · simp only [Bank.withdraw, hf]
      rw [if_neg (by simp [hw])]

/-- Witness for C4: withdrawing exactly the balance (10 of 10) succeeds and
empties the account; the insufficient branch holds vacuously. -/
theorem C4_witness :
    ((10 : ℤ) ≤ (10 : ℤ) →
      ((⟨[⟨1, "A", 10, []⟩], 2⟩ : Bank).withdraw 1 10 "t").2 = BankResult.ok
        ∧ ((⟨[⟨1, "A", 10, []⟩], 2⟩ : Bank).withdraw 1 10 "t").1.findAccount 1
            = some ⟨1, "A", 0, [⟨"t", "WITHDRAW", 10⟩]⟩)
    ∧ ((10 : ℤ) < (10 : ℤ) →
      ((⟨[⟨1, "A", 10, []⟩], 2⟩ : Bank).withdraw 1 10 "t").2 = BankResult.insufficientFunds
        ∧ ((⟨[⟨1, "A", 10, []⟩], 2⟩ : Bank).withdraw 1 10 "t").1 = ⟨[⟨1, "A", 10, []⟩], 2⟩) :=
  C4_withdraw_boundary ⟨[⟨1, "A", 10, []⟩], 2⟩ 1 10 "t" ⟨1, "A", 10, []⟩
    (by decide) (by decide)

/-- C5, counterexample: a ledger with a clean, non-empty owner but a
transaction timestamp containing the field delimiter `|` serializes to a
`T:` line whose third `|`-field is the kind string, so reloading crashes in
`stod` (load returns no ledger at all, in particular not one equal to L). -/
theorem C5_counterexample :
    (∀ acc ∈ ([⟨1, "A", 0, [⟨"x|y", "DEPOSIT", 1⟩]⟩] : List Account),
        acc.owner ≠ "" ∧ ';' ∉ acc.owner.toList ∧ '\n' ∉ acc.owner.toList)
      ∧ Bank.load initBank (Bank.save ⟨[⟨1, "A", 0, [⟨"x|y", "DEPOSIT", 1⟩]⟩], 2⟩) = none := by
  refine ⟨by decide, by decide⟩

/-- C5 (amended): for every ledger whose owners are non-empty and
delimiter-clean, whose transaction timestamps and kinds are also
delimiter-clean (no `|`, no newline - a timestamp with `|` breaks the
round-trip, see the counterexample), and whose `next_id` is the one load
computes (`max` of 1 and id+1 over the accounts in order, true of every
ledger this program itself builds), loading the file produced by saving it
yields exactly the same ledger (numeric re-rendering is exact in this
model). -/
theorem C5_roundtrip (L : Bank)
    (hc : ∀ a ∈ L.accounts, cleanAccount a)
    (hn : L.nextId = L.accounts.foldl (fun n a => max n (a.id + 1)) 1) :
    Bank.load initBank L.save = some L := by
  have h := load_save_aux L.accounts initBank
    (fun a ha => ⟨(hc a ha).2.1, fun t ht => (hc a ha).2.2.2 t ht⟩)
  rw [Bank.load, Bank.save]
  rw [show Bank.loadGo initBank none (L.accounts.map Account.serialize).flatten
      = some ⟨initBank.accounts ++ L.accounts,
          L.accounts.foldl (fun n a => max n (a.id + 1)) initBank.nextId⟩ from h]
  show some ⟨[] ++ L.accounts, L.accounts.foldl (fun n a => max n (a.id + 1)) 1⟩ = some L
  rw [List.nil_append, ← hn]

/-- Witness for C5: a concrete one-account ledger with a clean timestamp
round-trips exactly. -/
theorem C5_witness :
    Bank.load initBank
        (Bank.save ⟨[⟨1, "A", 5, [⟨"2024-01-01 00:00:00", "DEPOSIT", 5⟩]⟩], 2⟩)
      = some ⟨[⟨1, "A", 5, [⟨"2024-01-01 00:00:00", "DEPOSIT", 5⟩]⟩], 2⟩ :=
  C5_roundtrip ⟨[⟨1, "A", 5, [⟨"2024-01-01 00:00:00", "DEPOSIT", 5⟩]⟩], 2⟩
    (by decide) (by decide)

/-- C6, counterexample: `Bank::deposit` never checks the amount's sign and
`BankResult` has no invalid-argument outcome; depositing -5 into account 1
(balance 10) reports success and mutates the account to balance 5. -/
theorem C6_counterexample :
    (Bank.deposit ⟨[⟨1, "A", 10, []⟩], 2⟩ 1 (-5) "t").2 = BankResult.ok
      ∧ (Bank.deposit ⟨[⟨1, "A", 10, []⟩], 2⟩ 1 (-5) "t").1
          = ⟨[⟨1, "A", 5, [⟨"t", "DEPOSIT", -5⟩]⟩], 2⟩
      ∧ (⟨[⟨1, "A", 5, [⟨"t", "DEPOSIT", -5⟩]⟩], 2⟩ : Bank) ≠ ⟨[⟨1, "A", 10, []⟩], 2⟩ := by
  refine ⟨by decide, by decide, by decide⟩

/-- C6 (amended): the ledger-level deposit performs no amount validation at
all: the only check is existence of the account, and every amount -
including zero and negative ones - is passed to Account::deposit, which adds
it to the balance and appends a DEPOSIT entry. -/
theorem C6_deposit_unvalidated (b : Bank) (id a : ℤ) (ts : String) (acc : Account)
    (hf : b.findAccount id = some acc) :
    (b.deposit id a ts).2 = BankResult.ok
      ∧ (b.deposit id a ts).1.findAccount id
          = some { acc with balance := acc.balance + a
                            history := acc.history ++ [⟨ts, "DEPOSIT", a⟩] } := by
  constructor
  · simp only [Bank.deposit, hf]
  · have hacc : (b.deposit id a ts).1
        = ⟨updateFirst (fun x => x.id == id) (fun x => x.deposit a ts) b.accounts,
           b.nextId⟩ := by
      simp only [Bank.deposit, hf]
    rw [hacc, Bank.findAccount]
    show (updateFirst (fun x => x.id == id) (fun x => x.deposit a ts)
        b.accounts).find? (fun x => x.id == id) = _
    rw [find?_updateFirst (fun x => by rw [Account.deposit_id]) b.accounts]
    rw [show b.accounts.find? (fun x => x.id == id) = some acc from hf]
    rfl

/-- Witness for C6: the non-positive amount -5 goes straight through to the
account. -/
theorem C6_witness :
    ((⟨[⟨1, "A", 10, []⟩], 2⟩ : Bank).deposit 1 (-5) "t").2 = BankResult.ok
      ∧ ((⟨[⟨1, "A", 10, []⟩], 2⟩ : Bank).deposit 1 (-5) "t").1.findAccount 1
          = some ⟨1, "A", 5, [⟨"t", "DEPOSIT", -5⟩]⟩ :=
  C6_deposit_unvalidated ⟨[⟨1, "A", 10, []⟩], 2⟩ 1 (-5) "t" ⟨1, "A", 10, []⟩ (by decide)

/-- C7, counterexample: `Bank::transfer` checks neither `amount > 0` nor
`from ≠ to`.  A self-transfer of 5 on account 1 reports success and changes
the ledger (two new history entries), and a transfer of -3 is accepted as
well - nothing is rejected as an invalid argument. -/
theorem C7_counterexample :
    (Bank.transfer ⟨[⟨1, "A", 10, []⟩], 2⟩ 1 1 5 "t1" "t2").2 = BankResult.ok
      ∧ (Bank.transfer ⟨[⟨1, "A", 10, []⟩], 2⟩ 1 1 5 "t1" "t2").1 ≠ ⟨[⟨1, "A", 10, []⟩], 2⟩
      ∧ (Bank.transfer ⟨[⟨1, "A", 10, []⟩], 2⟩ 1 1 (-3) "t1" "t2").2 = BankResult.ok := by
  refine ⟨by decide, by decide, by decide⟩

/-- C7 (amended): a self-transfer whose amount does not exceed the balance
is accepted with success: both legs run on the same account (the two
pointers alias), appending a TRANSFER_OUT and a TRANSFER_IN entry and
leaving the balance net unchanged.  No validation of the amount's sign or
of `from ≠ to` exists in the code. -/
theorem C7_self_transfer (b : Bank) (id a : ℤ) (t1 t2 : String) (acc : Account)
    (hf : b.findAccount id = some acc) (hle : ¬acc.balance < a) :
    (b.transfer id id a t1 t2).2 = BankResult.ok
      ∧ (b.transfer id id a t1 t2).1.findAccount id
          = some { acc with balance := acc.balance - a + a
                            history := acc.history
                              ++ [⟨t1, "TRANSFER_OUT", a⟩, ⟨t2, "TRANSFER_IN", a⟩] }
      ∧ acc.balance - a + a = acc.balance := by
  refine ⟨?_, ?_, by omega⟩
  · simp only [Bank.transfer, hf]
    rw [if_neg hle]
  · have hacc : (b.transfer id id a t1 t2).1
        = ⟨updateFirst (fun x => x.id == id) (fun x => x.transferIn a t2)
            (updateFirst (fun x => x.id == id) (fun x => x.transferOut a t1) b.accounts),
           b.nextId⟩ := by
      simp only [Bank.transfer, hf]
      rw [if_neg hle]
    rw [hacc, Bank.findAccount]
    show (updateFirst (fun x => x.id == id) (fun x => x.transferIn a t2)
        (updateFirst (fun x => x.id == id) (fun x => x.transferOut a t1)
          b.accounts)).find? (fun x => x.id == id) = _
    rw [find?_updateFirst (fun x => by rw [Account.transferIn_id]),
      find?_updateFirst (fun x => by rw [Account.transferOut_id])]
    rw [show b.accounts.find? (fun x => x.id == id) = some acc from hf]
    show some ((acc.transferOut a t1).transferIn a t2) = _
    simp [Account.transferOut, Account.transferIn]

/-- Witness for C7: a concrete self-transfer of 5 on balance 10 succeeds and
keeps the balance at 10 while appending both legs. -/
theorem C7_witness :
    ((⟨[⟨1, "A", 10, []⟩], 2⟩ : Bank).transfer 1 1 5 "t1" "t2").2 = BankResult.ok
      ∧ ((⟨[⟨1, "A", 10, []⟩], 2⟩ : Bank).transfer 1 1 5 "t1" "t2").1.findAccount 1
          = some ⟨1, "A", 10, [⟨"t1", "TRANSFER_OUT", 5⟩, ⟨"t2", "TRANSFER_IN", 5⟩]⟩
      ∧ (10 : ℤ) - 5 + 5 = 10 :=
  C7_self_transfer ⟨[⟨1, "A", 10, []⟩], 2⟩ 1 5 "t1" "t2" ⟨1, "A", 10, []⟩
    (by decide) (by decide)

/-- C8: from any state whose `next_id` exceeds every existing id (as the
fresh bank's does), after any sequence of operations - loads included -
`next_id` still strictly exceeds every existing account id and has not
decreased; moreover create appends an account carrying exactly the old
`next_id` as its id and increments `next_id` by one, so ids created within
a run are strictly increasing. -/
theorem C8_next_id (ops : List Op) (b b' : Bank) (hb : IdInv b)
    (h : b.runOps ops = some b') :
    IdInv b'
      ∧ b.nextId ≤ b'.nextId
      ∧ ∀ name, (b'.createAccount name).accounts = b'.accounts ++ [⟨b'.nextId, name, 0, []⟩]
          ∧ (b'.createAccount name).nextId = b'.nextId + 1 := by
  have main : ∀ (ops : List Op) (b b' : Bank), IdInv b → b.runOps ops = some b' →
      IdInv b' ∧ b.nextId ≤ b'.nextId := by
    intro ops
    induction ops with
    | nil =>
      intro b b' hb h
      obtain rfl := Option.some.inj h
      exact ⟨hb, le_refl _⟩
    | cons op ops ih =>
      intro b b' hb h
      simp only [Bank.runOps] at h
      cases hst : b.step op with
      | none => rw [hst] at h; exact absurd h (by simp)
      | some b1 =>
        rw [hst] at h
        have hstep := step_IdInv hb hst
        have hrest := ih b1 b' hstep.1 h
        exact ⟨hrest.1, le_trans hstep.2 hrest.2⟩
  exact ⟨(main ops b b' hb h).1, (main ops b b' hb h).2, fun name => ⟨rfl, rfl⟩⟩

/-- Witness for C8: create then load of a block with id 1; `next_id` ends at
2, above both ids, and a further create takes id 2 and bumps `next_id`. -/
theorem C8_witness :
    IdInv ⟨[⟨1, "A", 0, []⟩, ⟨1, "B", 2, []⟩], 2⟩
      ∧ (1 : ℤ) ≤ 2
      ∧ ((⟨[⟨1, "A", 0, []⟩, ⟨1, "B", 2, []⟩], 2⟩ : Bank).createAccount "X").accounts
          = [⟨1, "A", 0, []⟩, ⟨1, "B", 2, []⟩] ++ [⟨2, "X", 0, []⟩]
        ∧ ((⟨[⟨1, "A", 0, []⟩, ⟨1, "B", 2, []⟩], 2⟩ : Bank).createAccount "X").nextId
          = 2 + 1 := by
  have h := C8_next_id [Op.createAccount "A", Op.load ["1;B;2", "END"]] initBank
    ⟨[⟨1, "A", 0, []⟩, ⟨1, "B", 2, []⟩], 2⟩ (by decide) (by decide)
  exact ⟨h.1, h.2.1, h.2.2 "X"⟩

/-- C9: `Account::withdraw` only compares the amount with the balance, so a
negative amount always passes the check on a nonnegative balance: the call
returns success, the balance strictly increases from b to b - a, and a
WITHDRAW entry carrying the negative amount is appended. -/
theorem C9_negative_withdraw (acc : Account) (a : ℤ) (ts : String)
    (hb : 0 ≤ acc.balance) (ha : a < 0) :
    (acc.withdraw a ts).2 = true
      ∧ (acc.withdraw a ts).1
          = { acc with balance := acc.balance - a
                       history := acc.history ++ [⟨ts, "WITHDRAW", a⟩] }
      ∧ acc.balance < acc.balance - a := by
  have hnlt : ¬acc.balance < a := by omega
  rw [Account.withdraw_of_le acc a ts hnlt]
  exact ⟨rfl, rfl, by omega⟩

/-- Witness for C9: withdrawing -5 from a zero balance succeeds and raises
the balance to 5. -/
theorem C9_witness :
    ((⟨1, "A", 0, []⟩ : Account).withdraw (-5) "t").2 = true
      ∧ ((⟨1, "A", 0, []⟩ : Account).withdraw (-5) "t").1
          = ⟨1, "A", 5, [⟨"t", "WITHDRAW", -5⟩]⟩
      ∧ (0 : ℤ) < 0 - (-5) := by
  have h := C9_negative_withdraw ⟨1, "A", 0, []⟩ (-5) "t" (by decide) (by decide)
  exact ⟨h.1, by rw [h.2.1]; decide, by decide⟩

/-- C10: load runs no id-uniqueness check: a file with two blocks carrying
the same id yields a ledger containing both accounts in file order, and
findAccount (the basis of deposit, withdraw, transfer and history) resolves
that id to the earlier-loaded account. -/
theorem C10_duplicate_ids (id : ℤ) (o1 o2 : String) (b1 b2 : ℤ)
    (h1 : ';' ∉ o1.toList) (h2 : ';' ∉ o2.toList) :
    Bank.load initBank
        [intToStr id ++ ";" ++ o1 ++ ";" ++ intToStr b1, "END",
         intToStr id ++ ";" ++ o2 ++ ";" ++ intToStr b2, "END"]
      = some ⟨[⟨id, o1, b1, []⟩, ⟨id, o2, b2, []⟩], max (max 1 (id + 1)) (id + 1)⟩
      ∧ (⟨[⟨id, o1, b1, []⟩, ⟨id, o2, b2, []⟩],
          max (max 1 (id + 1)) (id + 1)⟩ : Bank).findAccount id
        = some ⟨id, o1, b1, []⟩ := by
  constructor
  · have e1 : ([intToStr id ++ ";" ++ o1 ++ ";" ++ intToStr b1, "END",
        intToStr id ++ ";" ++ o2 ++ ";" ++ intToStr b2, "END"] : List String)
        = Account.serialize ⟨id, o1, b1, []⟩ ++ (Account.serialize ⟨id, o2, b2, []⟩ ++ []) := by
      simp [Account.serialize]
    rw [Bank.load, e1,
      loadGo_block _ _ _ h1 (fun t ht => absurd ht (List.not_mem_nil t)),
      loadGo_block _ _ _ h2 (fun t ht => absurd ht (List.not_mem_nil t))]
    rfl
  · rw [Bank.findAccount]
    show ([(⟨id, o1, b1, []⟩ : Account), ⟨id, o2, b2, []⟩].find? (fun x => x.id == id))
        = some ⟨id, o1, b1, []⟩
    rw [List.find?_cons_of_pos _ (by simp)]

/-- Witness for C10: two blocks with id 7 load into two accounts, and id 7
resolves to the first. -/
theorem C10_witness :
    Bank.load initBank
        [intToStr 7 ++ ";" ++ "A" ++ ";" ++ intToStr 3, "END",
         intToStr 7 ++ ";" ++ "B" ++ ";" ++ intToStr 4, "END"]
      = some ⟨[⟨7, "A", 3, []⟩, ⟨7, "B", 4, []⟩], max (max 1 (7 + 1)) (7 + 1)⟩
      ∧ (⟨[⟨7, "A", 3, []⟩, ⟨7, "B", 4, []⟩], max (max 1 (7 + 1)) (7 + 1)⟩ : Bank).findAccount 7
        = some ⟨7, "A", 3, []⟩ :=
  C10_duplicate_ids 7 "A" "B" 3 4 (by decide) (by decide)
